import Mathlib

/-!
Verification development for fast-lookup.cpp: a shallow embedding of the
equity record parser, the keyed container and its query primitives, and the
service facade, with theorems checking the behavioural claims of the design
specification against the embedded code.

Modelling conventions:
* C++ `double` values are modelled as exact rationals (ℚ); the inputs and
  comparisons relevant to the claims involve only small decimal literals,
  where rounding can not change any verdict.
* Thrown C++ exceptions are modelled by the `CppExn` type and surface in
  result types (`Except`, `ParseOutcome.thrown`).
* `std::map<string, EquityPtr>` is modelled as an association list sorted by
  key in ascending lexicographic `String` order, which is exactly the order
  `std::map` iterates in.
-/

set_option maxRecDepth 100000

namespace FastLookup

/-- The exception values the program can throw.  `domainErrorPtr` models the
`throw new std::domain_error(...)` in `EquityMap::FindByEquityName`: the value
thrown there is a pointer of type `std::domain_error*`, not an exception
object.  `invalidArgument` and `outOfRange` are the object exceptions thrown
by `std::stoll` / `std::stod`; `runtimeError` is the object thrown by
`EquityLoader` when the input has no header line. -/
inductive CppExn where
  | domainErrorPtr
  | invalidArgument
  | outOfRange
  | runtimeError
deriving DecidableEq

/-- Whether a thrown value is caught by a `catch (std::exception e)` clause.
Such a clause matches exception objects of type `std::exception` or of a
class derived from it (caught by value, sliced); it never matches a thrown
pointer such as the `std::domain_error*` from `FindByEquityName`. -/
def caughtByStdException : CppExn → Bool
  | .domainErrorPtr => false
  | .invalidArgument => true
  | .outOfRange => true
  | .runtimeError => true

/-- The `Equity` class: one validated record.  Field names follow the C++
getters.  `MarketCap` is the C++ `long long`; `Price` and `PE_ratio` are
C++ `double`, modelled as exact rationals. -/
structure Equity where
  EquityName : String
  Description : String
  MarketCap : Int
  Price : ℚ
  PE_ratio : ℚ
deriving DecidableEq

/-- The whitespace set of `LTrim`: `" \t\n\r\b"`. -/
def whitespaceChars : List Char := [' ', '\t', '\n', '\r', '\x08']

/-- `LTrim`: `find_first_not_of(" \t\n\r\b")`; if no such position exists
(`npos`), the ORIGINAL string is returned unchanged (so an all-whitespace
string is not trimmed at all); otherwise `substr(ix)`. -/
def LTrim (orig : String) : String :=
  match orig.data.findIdx? (fun c => !(whitespaceChars.contains c)) with
  | none => orig
  | some ix => String.mk (orig.data.drop ix)

/-- The decimal digit characters `"0123456789"`. -/
def digitChars : List Char := ['0', '1', '2', '3', '4', '5', '6', '7', '8', '9']

/-- The characters admitted by the decimal charset check: `"0123456789."`. -/
def digitDotChars : List Char :=
  ['0', '1', '2', '3', '4', '5', '6', '7', '8', '9', '.']

/-- Numeric value of a digit string (most significant digit first). -/
def digitsVal (cs : List Char) : ℕ :=
  cs.foldl (fun a c => 10 * a + (c.toNat - 48)) 0

/-- `LLONG_MAX`, the largest `long long` value. -/
def LLONG_MAX : ℤ := 2 ^ 63 - 1

/-- `DBL_MAX`, the largest finite `double`, as an exact natural number:
`(2^53 - 1) * 2^971 = 2^1024 - 2^971`. -/
def DBL_MAX_nat : ℕ := 2 ^ 1024 - 2 ^ 971

/-- Models `std::stoll` on the inputs that can reach it in this program
(strings of decimal digits, possibly empty, no sign): an empty subject
sequence throws `std::invalid_argument`; a value exceeding `LLONG_MAX`
throws `std::out_of_range`; otherwise the converted value is returned. -/
def stoll (s : String) : Except CppExn Int :=
  if s.data = [] then .error .invalidArgument
  else if (digitsVal s.data : ℤ) > LLONG_MAX then .error .outOfRange
  else .ok (digitsVal s.data)

/-- Models `std::stod` on the inputs that can reach it in this program
(strings over digits and the dot, possibly empty).  Per the `strtod` grammar
it converts the longest initial prefix of the form `digits [ '.' digits ]`
containing at least one digit; if no such prefix exists it throws
`std::invalid_argument`; a converted value beyond `DBL_MAX` throws
`std::out_of_range`.  The value is modelled exactly (no rounding). -/
def stod (s : String) : Except CppExn ℚ :=
  let cs := s.data
  let intPart := cs.takeWhile (fun c => digitChars.contains c)
  let rest := cs.dropWhile (fun c => digitChars.contains c)
  if rest.head? = some '.' then
    let fracPart := (rest.drop 1).takeWhile (fun c => digitChars.contains c)
    if intPart = [] ∧ fracPart = [] then .error .invalidArgument
    else
      let num : ℕ := digitsVal intPart * 10 ^ fracPart.length + digitsVal fracPart
      let den : ℕ := 10 ^ fracPart.length
      if num > DBL_MAX_nat * den then .error .outOfRange
      else .ok ((num : ℚ) / (den : ℚ))
  else
    if intPart = [] then .error .invalidArgument
    else if digitsVal intPart > DBL_MAX_nat then .error .outOfRange
    else .ok ((digitsVal intPart : ℚ))

/-- Outcome of a parsing step: `ok` (the C++ code sets the target and
`_Ok = true`), `fail` (the code returns with `_Ok = false`), or `thrown`
(an exception escapes the function). -/
inductive ParseOutcome (α : Type) where
  | ok (v : α)
  | fail
  | thrown (e : CppExn)
deriving DecidableEq

/-- The `ParseString(const string&, long long&)` constructor: `LTrim`, then
the charset check `find_first_not_of("0123456789")`, then `std::stoll`.
Only `std::out_of_range` is caught (yielding `_Ok = false`); the
`std::invalid_argument` thrown on an empty subject sequence escapes. -/
def ParseStringLL (xinput : String) : ParseOutcome Int :=
  let input := LTrim xinput
  if input.data.any (fun c => !(digitChars.contains c)) then .fail
  else
    match stoll input with
    | .ok v => .ok v
    | .error .outOfRange => .fail
    | .error e => .thrown e

/-- The `ParseString(const string&, double&)` constructor: `LTrim`, then the
charset check `find_first_not_of("0123456789.")`, then `std::stod`.  Only
`std::out_of_range` is caught; `std::invalid_argument` escapes. -/
def ParseStringD (xinput : String) : ParseOutcome ℚ :=
  let input := LTrim xinput
  if input.data.any (fun c => !(digitDotChars.contains c)) then .fail
  else
    match stod input with
    | .ok v => .ok v
    | .error .outOfRange => .fail
    | .error e => .thrown e

/-- One `std::getline(ss, cur, delim)` loop over a character list: tokens are
the maximal delimiter-free runs; a trailing delimiter does NOT produce a
final empty token (the next `getline` hits end-of-stream and fails), and an
empty input produces no tokens at all. -/
def splitChars (delim : Char) : List Char → List (List Char)
  | [] => []
  | c :: rest =>
    if c = delim then [] :: splitChars delim rest
    else
      match splitChars delim rest with
      | [] => [[c]]
      | t :: ts => (c :: t) :: ts

/-- The `StringSplitter` class: split `text` on the single-character
delimiter using the getline loop above. -/
def StringSplitter (delim : Char) (text : String) : List String :=
  (splitChars delim text.data).map String.mk

/-- The identifier charset `"ABCDEFGHIJKLMNOPQRSTUVWXYZ0123456789"`. -/
def EquityNameChars : List Char :=
  ['A', 'B', 'C', 'D', 'E', 'F', 'G', 'H', 'I', 'J', 'K', 'L', 'M',
   'N', 'O', 'P', 'Q', 'R', 'S', 'T', 'U', 'V', 'W', 'X', 'Y', 'Z',
   '0', '1', '2', '3', '4', '5', '6', '7', '8', '9']

/-- `EquityTextFactory::parse_EquityName`: the charset check
(`find_first_not_of` over `[A-Z0-9]`) runs first, then the length bounds
`1 ≤ size ≤ 6`; on success the raw field is assigned to the target
unchanged (no trimming, no case-folding). -/
def parse_EquityName (rawField : String) : Option String :=
  if rawField.data.any (fun c => !(EquityNameChars.contains c)) then none
  else if rawField.data.length < 1 ∨ rawField.data.length > 6 then none
  else some rawField

/-- `EquityTextFactory::ParseEquity`: split the line on `'|'`; reject unless
exactly `F_COUNT = 5` tokens; then validate/convert in schema order
(identifier, description, market-cap, price, P/E), short-circuiting on the
first failing field.  The description is assigned verbatim with no
validation.  A `ParseString` step that throws propagates its exception out
of the factory. -/
def ParseEquity (inputString : String) : ParseOutcome Equity :=
  match StringSplitter '|' inputString with
  | [t0, t1, t2, t3, t4] =>
    match parse_EquityName t0 with
    | none => .fail
    | some name =>
      match ParseStringLL t2 with
      | .thrown e => .thrown e
      | .fail => .fail
      | .ok cap =>
        match ParseStringD t3 with
        | .thrown e => .thrown e
        | .fail => .fail
        | .ok price =>
          match ParseStringD t4 with
          | .thrown e => .thrown e
          | .fail => .fail
          | .ok pe => .ok ⟨name, t1, cap, price, pe⟩
  | _ => .fail

/-- The `EquityMap` container: `std::map<string, EquityPtr>` modelled as an
association list kept in ascending key order. -/
abbrev EquityMap := List (String × Equity)

/-- Ordered insert-or-replace, the model of `_Map[key] = value` on a
`std::map` with the default `operator<` key comparison. -/
def insertMap : EquityMap → String → Equity → EquityMap
  | [], k, v => [(k, v)]
  | (k1, v1) :: rest, k, v =>
    if k < k1 then (k, v) :: (k1, v1) :: rest
    else if k = k1 then (k, v) :: rest
    else (k1, v1) :: insertMap rest k v

/-- `EquityMap::Insert`: `_Map[e->GetEquityName()] = e`. -/
def Insert (m : EquityMap) (e : Equity) : EquityMap :=
  insertMap m e.EquityName e

/-- `std::map::find` on the model: first (and only) entry with the key. -/
def findEntry : EquityMap → String → Option Equity
  | [], _ => none
  | (k, v) :: rest, name => if k = name then some v else findEntry rest name

/-- `EquityMap::FindByEquityName`: returns the entry, or executes
`throw new std::domain_error("No such equity name")` — throwing a pointer,
modelled as `CppExn.domainErrorPtr`. -/
def FindByEquityName (m : EquityMap) (name : String) : Except CppExn Equity :=
  match findEntry m name with
  | some e => .ok e
  | none => .error .domainErrorPtr

/-- Which operand a `Compare` call returns.  The C++ interface returns a
`const Equity&` and the caller tests the identity (`&selected != &*cur`) of
the returned reference; every filter in the program returns one of its two
operands, so the observable information is exactly which side was chosen. -/
inductive Side where
  | left
  | right
deriving DecidableEq

/-- The `EquityFilter` base class: a virtual `Compare` defaulting to the
left operand and a virtual `Select` defaulting to `false`. -/
structure EquityFilter where
  Compare : Equity → Equity → Side := fun _ _ => .left
  Select : Equity → Bool := fun _ => false

/-- One iteration of the `SelectByFilter` loop: if the filter selects the
record, increment the count and `Insert` the record into the result map. -/
def selectStep (filter : EquityFilter) (acc : ℕ × EquityMap)
    (p : String × Equity) : ℕ × EquityMap :=
  if filter.Select p.2 then (acc.1 + 1, Insert acc.2 p.2) else acc

/-- `EquityMap::SelectByFilter`: early-returns 0 on an empty map, otherwise
iterates every entry in key order, inserting selected records into the
caller-supplied result map and returning the number added.  The source map
is a `const` receiver and is only read. -/
def SelectByFilter (m : EquityMap) (filter : EquityFilter)
    (result : EquityMap) : ℕ × EquityMap :=
  if m.length = 0 then (0, result)
  else m.foldl (selectStep filter) (0, result)

/-- One iteration of the `FindByCompareFilter` loop: keep `cur` unless the
filter returns the identity of the right-hand operand. -/
def compareStep (filter : EquityFilter) (cur : Equity)
    (p : String × Equity) : Equity :=
  if filter.Compare cur p.2 = Side.right then p.2 else cur

/-- `EquityMap::FindByCompareFilter`: null on an empty map; on a one-element
map the sole entry, returned before any `Compare` call; otherwise a left
fold over the remaining entries in key order starting from the first. -/
def FindByCompareFilter (m : EquityMap) (filter : EquityFilter) :
    Option Equity :=
  match m with
  | [] => none
  | [(_, e)] => some e
  | (_, e) :: rest => some (rest.foldl (compareStep filter) e)

/-- `LowestPE_filter`: compare by P/E ratio, lowest wins; on equal P/E the
lower price wins; on an exact tie the right operand is returned. -/
def LowestPE_filter : EquityFilter where
  Compare := fun l r =>
    if l.PE_ratio < r.PE_ratio then .left
    else if r.PE_ratio < l.PE_ratio then .right
    else if l.Price < r.Price then .left
    else .right

/-- `PE_RangeFilter`: select records whose P/E lies in `[minPE, maxPE]`. -/
def PE_RangeFilter (minPE maxPE : ℚ) : EquityFilter where
  Select := fun elem =>
    if elem.PE_ratio < minPE ∨ elem.PE_ratio > maxPE then false else true

/-- One loop iteration of `EquityLoader`: parse the line; on success insert
the record; on a null result (`fail`) skip the line.  Every exception
`ParseEquity` can throw is a `std::invalid_argument` object, which the
in-loop `catch (std::exception e)` clause catches, so a throwing line is
likewise skipped. -/
def loadStep (m : EquityMap) (line : String) : EquityMap :=
  match ParseEquity line with
  | .ok e => Insert m e
  | .fail => m
  | .thrown _ => m

/-- `EquityLoader`: the first `getline` reads the header, which is discarded
without inspection; if it fails (no lines at all) the loader throws
`std::runtime_error("No header line in input")`.  All remaining lines are
processed with `loadStep` into an initially empty map. -/
def EquityLoader : List String → Except CppExn EquityMap
  | [] => .error .runtimeError
  | _ :: rest => .ok (rest.foldl loadStep [])

/-- `EquityService::initialize`: run the loader; `catch (...)` catches every
exception and returns `false`, modelled as `none`. -/
def srvInit (lines : List String) : Option EquityMap :=
  match EquityLoader lines with
  | .ok m => some m
  | .error _ => none

/-- `EquityService::getSecurityInfo`: call `FindByEquityName` inside
`try { ... } catch (std::exception e) { ... }`; a caught exception yields a
null `EquityPtr` (`ok none`); an exception the clause does not match — the
thrown `std::domain_error*` pointer — escapes the function. -/
def getSecurityInfo (m : EquityMap) (equityName : String) :
    Except CppExn (Option Equity) :=
  match FindByEquityName m equityName with
  | .ok e => .ok (some e)
  | .error ex => if caughtByStdException ex then .ok none else .error ex

/-- `EquityService::lowestPE`: the name of the record chosen by
`FindByCompareFilter` with `LowestPE_filter`, or `""` for a null result. -/
def lowestPE (m : EquityMap) : String :=
  match FindByCompareFilter m LowestPE_filter with
  | some e => e.EquityName
  | none => ""

/-- Keys of a map, in storage (= iteration) order. -/
def keys (m : EquityMap) : List String := m.map Prod.fst

/-- The `std::map` representation invariant: keys strictly ascending (each
key is less than every later key). -/
def SortedKeys (m : EquityMap) : Prop := (keys m).Pairwise (· < ·)

/-- Whether a digits-and-dots string begins with a convertible prefix under
the `strtod` number grammar: a digit, or a dot followed by a digit.  Used to
state the amended decimal-conversion claim. -/
def hasDecimalStart : List Char → Bool
  | [] => false
  | c :: rest =>
    if digitChars.contains c then true
    else if c = '.' then
      match rest with
      | [] => false
      | c2 :: _ => digitChars.contains c2
    else false

/-- A filter that selects every record (used as a concrete comparator /
predicate instance in tests of the query primitives). -/
def selectAll : EquityFilter := { Select := fun _ => true }

/-- Sample record keyed `"A"`. -/
def eqA : Equity := ⟨("A"), ("one"), 1, 1, 1⟩

/-- A different sample record with the same key `"A"`. -/
def eqA2 : Equity := ⟨("A"), ("two"), 2, 2, 2⟩

/-- Sample record keyed `"B"`. -/
def eqB : Equity := ⟨("B"), ("bee"), 3, 3, 3⟩

/-- The pair of maps a query primitive can see: the service-owned source map
(the `const` receiver) and the caller-supplied result map. -/
structure ServiceState where
  src : EquityMap
  result : EquityMap
deriving DecidableEq

/-- `SelectByFilter` as a transformer on the two maps: the C++ method is
`const` on the source map; its only write is `result.Insert`. -/
def SelectByFilterS (filter : EquityFilter) (st : ServiceState) :
    ℕ × ServiceState :=
  let out := SelectByFilter st.src filter st.result
  (out.1, { src := st.src, result := out.2 })

/-- `FindByCompareFilter` as a transformer on the two maps: the method only
reads the source map and writes neither map. -/
def FindByCompareFilterS (filter : EquityFilter) (st : ServiceState) :
    Option Equity × ServiceState :=
  (FindByCompareFilter st.src filter, st)

/-- C6: identifier validation succeeds exactly on strings over `[A-Z0-9]` of
length 1 to 6, and returns the input unchanged (no trimming, no
case-folding); all other inputs are rejected. -/
theorem C6_validate_identifier (s : String) :
    parse_EquityName s =
      if (∀ c ∈ s.data, c ∈ EquityNameChars) ∧
          (1 ≤ s.data.length ∧ s.data.length ≤ 6)
      then some s else none := by
  unfold parse_EquityName
  by_cases hcs : ∀ c ∈ s.data, c ∈ EquityNameChars
  · have h1 : ¬(s.data.any (fun c => !(EquityNameChars.contains c)) = true) := by
      intro h
      obtain ⟨c, hc, hcb⟩ := List.any_eq_true.mp h
      have : c ∉ EquityNameChars := by simpa using hcb
      exact this (hcs c hc)
    by_cases hlen : 1 ≤ s.data.length ∧ s.data.length ≤ 6
    · rw [if_neg h1, if_neg (by omega : ¬(s.data.length < 1 ∨ s.data.length > 6)),
        if_pos ⟨hcs, hlen⟩]
    · rw [if_neg h1, if_pos (by omega : s.data.length < 1 ∨ s.data.length > 6),
        if_neg (fun hc => hlen hc.2)]
  · have h1 : s.data.any (fun c => !(EquityNameChars.contains c)) = true := by
      push_neg at hcs
      obtain ⟨c, hc, hcmem⟩ := hcs
      exact List.any_eq_true.mpr ⟨c, hc, by simpa using hcmem⟩
    rw [if_pos h1, if_neg (fun hc => hcs hc.1)]

/-- C1: on a store that does not contain the looked-up identifier,
`FindByEquityName` executes `throw new std::domain_error(...)` — a thrown
pointer — which the `catch (std::exception e)` clause of `getSecurityInfo`
cannot match, so the exception escapes `getSecurityInfo` instead of
producing the documented null result. -/
theorem C1_lookup_absent_escapes (m : EquityMap) (name : String)
    (h : findEntry m name = none) :
    FindByEquityName m name = .error CppExn.domainErrorPtr ∧
    caughtByStdException CppExn.domainErrorPtr = false ∧
    getSecurityInfo m name = .error CppExn.domainErrorPtr := by
  have hf : FindByEquityName m name = .error CppExn.domainErrorPtr := by
    unfold FindByEquityName
    rw [h]
  refine ⟨hf, rfl, ?_⟩
  unfold getSecurityInfo
  rw [hf]
  rfl

/-- C1 witness: looking up `"IBMUS"` in the empty store makes the thrown
`std::domain_error*` escape `getSecurityInfo`. -/
theorem C1_lookup_absent_escapes_witness :
    getSecurityInfo [] ("IBMUS") = .error CppExn.domainErrorPtr :=
  (C1_lookup_absent_escapes [] ("IBMUS") rfl).2.2

/-- C2: a line whose market-cap field is empty passes the digits-only
charset check, so `std::stoll` is called on an empty string and throws
`std::invalid_argument`; the `catch (std::out_of_range)` clause does not
match it, so the exception escapes `ParseString` and `ParseEquity` instead
of yielding a rejected outcome.  (`caughtByStdException` records that the
loader's own `catch (std::exception e)` later catches the object.) -/
theorem C2_empty_numeric_field_throws :
    ParseEquity ("AAAAA|desc||10.0|5.0") = .thrown CppExn.invalidArgument ∧
    ParseStringLL ("") = .thrown CppExn.invalidArgument ∧
    ParseStringD ("") = .thrown CppExn.invalidArgument ∧
    caughtByStdException CppExn.invalidArgument = true := by
  refine ⟨by decide, by decide, by decide, rfl⟩

/-- C4: ingestion (a) reports a hard setup failure on empty input, (b)
discards the first line unconditionally — the result does not depend on its
content, (c) never fails once a header line exists, and (d) a rejected
record line contributes nothing and does not stop the processing of the
remaining lines. -/
theorem C4_header_and_rejection (mid : EquityMap) :
    srvInit [] = none ∧
    (∀ (h1 h2 : String) (rest : List String),
      srvInit (h1 :: rest) = srvInit (h2 :: rest)) ∧
    (∀ (h : String) (rest : List String),
      srvInit (h :: rest) = some (rest.foldl loadStep [])) ∧
    (∀ (bad : String) (rest : List String), ParseEquity bad = .fail →
      List.foldl loadStep mid (bad :: rest) = List.foldl loadStep mid rest) := by
  refine ⟨rfl, fun _ _ _ => rfl, fun _ _ => rfl, ?_⟩
  intro bad rest hbad
  have hstep : loadStep mid bad = mid := by
    unfold loadStep
    rw [hbad]
  rw [List.foldl_cons, hstep]

/-- C4 witness: the line `"x"` is rejected (it does not split into 5
fields) and the following valid line is still ingested. -/
theorem C4_header_and_rejection_witness :
    List.foldl loadStep [] [("x"), ("AB|d|1|2.5|3")] =
      List.foldl loadStep [] [("AB|d|1|2.5|3")] :=
  (C4_header_and_rejection []).2.2.2 ("x") [("AB|d|1|2.5|3")] (by decide)

theorem findEntry_insertMap_self (m : EquityMap) (k : String) (v : Equity) :
    findEntry (insertMap m k v) k = some v := by
  induction m with
  | nil => simp [insertMap, findEntry]
  | cons p rest ih =>
    obtain ⟨k1, v1⟩ := p
    unfold insertMap
    by_cases h1 : k < k1
    · rw [if_pos h1]
      unfold findEntry
      rw [if_pos rfl]
    · rw [if_neg h1]
      by_cases h2 : k = k1
      · rw [if_pos h2]
        unfold findEntry
        rw [if_pos rfl]
      · rw [if_neg h2]
        unfold findEntry
        rw [if_neg (fun h => h2 h.symm)]
        exact ih

theorem insertMap_insertMap_same (m : EquityMap) (k : String) (v v2 : Equity) :
    insertMap (insertMap m k v) k v2 = insertMap m k v2 := by
  induction m with
  | nil => simp [insertMap, if_neg (lt_irrefl k)]
  | cons p rest ih =>
    obtain ⟨k1, v1⟩ := p
    by_cases h1 : k < k1
    · simp only [insertMap, if_pos h1, if_neg (lt_irrefl k), if_pos rfl]
      simp
    · by_cases h2 : k = k1
      · subst h2
        simp only [insertMap, if_neg h1, if_pos rfl, if_neg (lt_irrefl k)]
        simp
      · simp only [insertMap, if_neg h1, if_neg h2, ih]

/-- C9: inserting a record and then looking its identifier up returns that
very record; inserting a second record with the same identifier silently
replaces the first (last-write-wins, no error on overwrite). -/
theorem C9_insert_find_roundtrip :
    (∀ (m : EquityMap) (e : Equity),
      FindByEquityName (Insert m e) e.EquityName = .ok e) ∧
    (∀ (m : EquityMap) (e e2 : Equity), e.EquityName = e2.EquityName →
      Insert (Insert m e) e2 = Insert m e2) := by
  constructor
  · intro m e
    unfold FindByEquityName Insert
    rw [findEntry_insertMap_self]
  · intro m e e2 h
    unfold Insert
    rw [h, insertMap_insertMap_same]

/-- C9 witness: round-trip and overwrite at the concrete records `eqA`,
`eqA2` (both keyed `"A"`) on the empty store. -/
theorem C9_insert_find_roundtrip_witness :
    FindByEquityName (Insert [] eqA) (("A")) = .ok eqA ∧
    Insert (Insert [] eqA) eqA2 = Insert [] eqA2 :=
  ⟨C9_insert_find_roundtrip.1 [] eqA, C9_insert_find_roundtrip.2 [] eqA eqA2 rfl⟩

theorem mem_keys_insertMap (m : EquityMap) (k : String) (v : Equity) :
    ∀ k2 ∈ keys (insertMap m k v), k2 = k ∨ k2 ∈ keys m := by
  induction m with
  | nil =>
    intro k2 h
    left
    simpa [insertMap, keys] using h
  | cons p rest ih =>
    obtain ⟨k1, v1⟩ := p
    intro k2 h
    unfold insertMap at h
    by_cases h1 : k < k1
    · rw [if_pos h1] at h
      simp only [keys, List.map_cons, List.mem_cons] at h ⊢
      tauto
    · rw [if_neg h1] at h
      by_cases h2 : k = k1
      · rw [if_pos h2] at h
        simp only [keys, List.map_cons, List.mem_cons] at h ⊢
        tauto
      · rw [if_neg h2] at h
        simp only [keys, List.map_cons, List.mem_cons] at h ⊢
        rcases h with h | h
        · tauto
        · rcases ih k2 h with h3 | h3 <;> tauto

theorem sortedKeys_insertMap (m : EquityMap) (k : String) (v : Equity)
    (h : SortedKeys m) : SortedKeys (insertMap m k v) := by
  unfold SortedKeys at h ⊢
  induction m with
  | nil => simp [insertMap, keys]
  | cons p rest ih =>
    obtain ⟨k1, v1⟩ := p
    simp only [keys, List.map_cons, List.pairwise_cons] at h
    obtain ⟨hk1, hrest⟩ := h
    unfold insertMap
    by_cases h1 : k < k1
    · rw [if_pos h1]
      simp only [keys, List.map_cons, List.pairwise_cons]
      refine ⟨?_, hk1, hrest⟩
      intro b hb
      rcases List.mem_cons.mp hb with rfl | hb2
      · exact h1
      · exact lt_trans h1 (hk1 b hb2)
    · by_cases h2 : k = k1
      · rw [if_neg h1, if_pos h2]
        simp only [keys, List.map_cons, List.pairwise_cons]
        exact ⟨fun b hb => h2 ▸ hk1 b hb, hrest⟩
      · rw [if_neg h1, if_neg h2]
        simp only [keys, List.map_cons, List.pairwise_cons]
        have hk1k : k1 < k := by
          rcases lt_trichotomy k k1 with h | h | h
          · exact absurd h h1
          · exact absurd h h2
          · exact h
        refine ⟨?_, ih hrest⟩
        intro b hb
        rcases mem_keys_insertMap rest k v b hb with rfl | hb2
        · exact hk1k
        · exact hk1 b hb2

/-- C7: `FindByCompareFilter` returns none on the empty store; on a
one-element store it returns the sole record independently of the supplied
comparator (which is never invoked); on larger stores it is the left fold
of `compareStep` over the remaining entries in storage order starting from
the first record, where each step replaces the running best exactly when
the comparator returns (the identity of) the right-hand candidate; and
`Insert` keeps the storage order strictly ascending by key, so the fold
order is ascending key order. -/
theorem C7_reduce_by_comparator :
    (∀ filter : EquityFilter, FindByCompareFilter [] filter = none) ∧
    (∀ (k : String) (e : Equity) (f g : EquityFilter),
      FindByCompareFilter [(k, e)] f = some e ∧
      FindByCompareFilter [(k, e)] f = FindByCompareFilter [(k, e)] g) ∧
    (∀ (f : EquityFilter) (k : String) (e : Equity) (p : String × Equity)
      (rest : EquityMap),
      FindByCompareFilter ((k, e) :: p :: rest) f =
        some ((p :: rest).foldl (compareStep f) e)) ∧
    (∀ (f : EquityFilter) (cur cand : Equity) (k : String),
      compareStep f cur (k, cand) =
        if f.Compare cur cand = Side.right then cand else cur) ∧
    (∀ (m : EquityMap) (e : Equity), SortedKeys m → SortedKeys (Insert m e)) :=
  ⟨fun _ => rfl, fun _ _ _ _ => ⟨rfl, rfl⟩, fun _ _ _ _ _ => rfl,
    fun _ _ _ _ => rfl, fun m e h => sortedKeys_insertMap m e.EquityName e h⟩

/-- C7 witness: inserting into the (sorted) empty store keeps the keys
sorted. -/
theorem C7_reduce_by_comparator_witness : SortedKeys (Insert [] eqA) :=
  C7_reduce_by_comparator.2.2.2.2 [] eqA (by simp [SortedKeys, keys])

/-- The ordering the lowest-P/E query minimises: strictly lower P/E, or
equal P/E and no higher price. -/
def lexLe (a b : Equity) : Prop :=
  a.PE_ratio < b.PE_ratio ∨ (a.PE_ratio = b.PE_ratio ∧ a.Price ≤ b.Price)

theorem lexLe_refl (a : Equity) : lexLe a a := .inr ⟨rfl, le_refl _⟩

theorem lexLe_trans {a b c : Equity} (h1 : lexLe a b) (h2 : lexLe b c) :
    lexLe a c := by
  rcases h1 with h1 | ⟨h1, h1p⟩ <;> rcases h2 with h2 | ⟨h2, h2p⟩
  · exact .inl (lt_trans h1 h2)
  · exact .inl (by rw [← h2]; exact h1)
  · exact .inl (by rw [h1]; exact h2)
  · exact .inr ⟨h1.trans h2, le_trans h1p h2p⟩

theorem lowestPE_compare_eval (l r : Equity) :
    LowestPE_filter.Compare l r =
      if l.PE_ratio < r.PE_ratio then Side.left
      else if r.PE_ratio < l.PE_ratio then Side.right
      else if l.Price < r.Price then Side.left
      else Side.right := rfl

theorem compareStep_lowest (cur : Equity) (p : String × Equity) :
    (compareStep LowestPE_filter cur p = cur ∨
      compareStep LowestPE_filter cur p = p.2) ∧
    lexLe (compareStep LowestPE_filter cur p) cur ∧
    lexLe (compareStep LowestPE_filter cur p) p.2 := by
  unfold compareStep
  rw [lowestPE_compare_eval]
  rcases lt_trichotomy cur.PE_ratio p.2.PE_ratio with hpe | hpe | hpe
  · rw [if_pos hpe, if_neg (by simp : ¬(Side.left = Side.right))]
    exact ⟨.inl rfl, lexLe_refl cur, .inl hpe⟩
  · rw [if_neg (not_lt.mpr hpe.ge), if_neg (not_lt.mpr hpe.le)]
    by_cases hpr : cur.Price < p.2.Price
    · rw [if_pos hpr, if_neg (by simp : ¬(Side.left = Side.right))]
      exact ⟨.inl rfl, lexLe_refl cur, .inr ⟨hpe, le_of_lt hpr⟩⟩
    · rw [if_neg hpr, if_pos rfl]
      exact ⟨.inr rfl, .inr ⟨hpe.symm, not_lt.mp hpr⟩, lexLe_refl p.2⟩
  · rw [if_neg (not_lt.mpr hpe.le), if_pos hpe, if_pos rfl]
    exact ⟨.inr rfl, .inl hpe, lexLe_refl p.2⟩

theorem foldl_compareStep_lowest (rest : EquityMap) :
    ∀ cur : Equity,
      (rest.foldl (compareStep LowestPE_filter) cur = cur ∨
        rest.foldl (compareStep LowestPE_filter) cur ∈ rest.map Prod.snd) ∧
      lexLe (rest.foldl (compareStep LowestPE_filter) cur) cur ∧
      (∀ x ∈ rest.map Prod.snd,
        lexLe (rest.foldl (compareStep LowestPE_filter) cur) x) := by
  induction rest with
  | nil =>
    intro cur
    exact ⟨.inl rfl, lexLe_refl cur, by simp⟩
  | cons p t ih =>
    intro cur
    have hstep := compareStep_lowest cur p
    have hih := ih (compareStep LowestPE_filter cur p)
    simp only [List.foldl_cons]
    refine ⟨?_, ?_, ?_⟩
    · rcases hih.1 with h | h
      · rw [h]
        rcases hstep.1 with h2 | h2
        · exact .inl h2
        · right
          rw [h2]
          simp
      · right
        simp only [List.map_cons, List.mem_cons]
        exact .inr h
    · exact lexLe_trans hih.2.1 hstep.2.1
    · intro x hx
      simp only [List.map_cons, List.mem_cons] at hx
      rcases hx with rfl | hx
      · exact lexLe_trans hih.2.1 hstep.2.2
      · exact hih.2.2 x hx

/-- C8: the lowest-P/E comparator returns the operand with the strictly
lower P/E ratio, and on equal P/E the operand with the lower price; as a
consequence, on any non-empty store `lowestPE` returns the identifier of a
stored record that is minimal by P/E ratio, tie-broken by lowest price
(`lexLe`-minimal among the stored records). -/
theorem C8_lowest_pe :
    (∀ l r : Equity,
      (l.PE_ratio < r.PE_ratio → LowestPE_filter.Compare l r = Side.left) ∧
      (r.PE_ratio < l.PE_ratio → LowestPE_filter.Compare l r = Side.right) ∧
      (l.PE_ratio = r.PE_ratio → l.Price < r.Price →
        LowestPE_filter.Compare l r = Side.left) ∧
      (l.PE_ratio = r.PE_ratio → r.Price < l.Price →
        LowestPE_filter.Compare l r = Side.right)) ∧
    (∀ m : EquityMap, m ≠ [] →
      ∃ e : Equity, FindByCompareFilter m LowestPE_filter = some e ∧
        lowestPE m = e.EquityName ∧ e ∈ m.map Prod.snd ∧
        ∀ x ∈ m.map Prod.snd, lexLe e x) := by
  constructor
  · intro l r
    refine ⟨?_, ?_, ?_, ?_⟩
    · intro h
      rw [lowestPE_compare_eval, if_pos h]
    · intro h
      rw [lowestPE_compare_eval, if_neg (not_lt.mpr h.le), if_pos h]
    · intro heq hpr
      rw [lowestPE_compare_eval, if_neg (not_lt.mpr heq.ge),
        if_neg (not_lt.mpr heq.le), if_pos hpr]
    · intro heq hpr
      rw [lowestPE_compare_eval, if_neg (not_lt.mpr heq.ge),
        if_neg (not_lt.mpr heq.le), if_neg (not_lt.mpr hpr.le)]
  · intro m hm
    match m with
    | [(k, e)] =>
      refine ⟨e, rfl, rfl, by simp, ?_⟩
      intro x hx
      simp only [List.map_cons, List.map_nil, List.mem_singleton] at hx
      subst hx
      exact lexLe_refl x
    | (k, e) :: p :: rest =>
      have hfold := foldl_compareStep_lowest (p :: rest) e
      refine ⟨(p :: rest).foldl (compareStep LowestPE_filter) e, rfl, rfl,
        ?_, ?_⟩
      · rcases hfold.1 with h | h
        · rw [h]
          simp
        · simp only [List.map_cons, List.mem_cons]
          right
          simpa using h
      · intro x hx
        simp only [List.map_cons, List.mem_cons] at hx
        rcases hx with rfl | hx
        · exact hfold.2.1
        · exact hfold.2.2 x (by simpa using hx)

/-- C8 witness: on the concrete singleton store holding `eqA`, the query
returns `eqA` and it is minimal. -/
theorem C8_lowest_pe_witness :
    ∃ e : Equity,
      FindByCompareFilter [(("A"), eqA)] LowestPE_filter = some e ∧
      lowestPE [(("A"), eqA)] = e.EquityName ∧
      e ∈ ([(("A"), eqA)] : EquityMap).map Prod.snd ∧
      ∀ x ∈ ([(("A"), eqA)] : EquityMap).map Prod.snd, lexLe e x :=
  C8_lowest_pe.2 [(("A"), eqA)] (by simp)

theorem findEntry_insertMap_ne (m : EquityMap) (k : String) (v : Equity)
    (k2 : String) (h : k ≠ k2) :
    findEntry (insertMap m k v) k2 = findEntry m k2 := by
  induction m with
  | nil => simp [insertMap, findEntry, if_neg h]
  | cons p rest ih =>
    obtain ⟨k1, v1⟩ := p
    unfold insertMap
    by_cases h1 : k < k1
    · rw [if_pos h1]
      simp only [findEntry]
      rw [if_neg h]
    · rw [if_neg h1]
      by_cases h2 : k = k1
      · rw [if_pos h2]
        subst h2
        simp only [findEntry]
        rw [if_neg h, if_neg h]
      · rw [if_neg h2]
        simp only [findEntry]
        by_cases h3 : k1 = k2
        · rw [if_pos h3, if_pos h3]
        · rw [if_neg h3, if_neg h3, ih]

theorem keys_insertMap_mem (m : EquityMap) (k0 : String) (v : Equity)
    (k : String) (h : k ∈ keys m) : k ∈ keys (insertMap m k0 v) := by
  induction m with
  | nil => simp [keys] at h
  | cons p rest ih =>
    obtain ⟨k1, v1⟩ := p
    simp only [keys, List.map_cons, List.mem_cons] at h
    unfold insertMap
    by_cases h1 : k0 < k1
    · rw [if_pos h1]
      simp only [keys, List.map_cons, List.mem_cons]
      tauto
    · by_cases h2 : k0 = k1
      · rw [if_neg h1, if_pos h2]
        simp only [keys, List.map_cons, List.mem_cons]
        rcases h with rfl | h
        · left
          exact h2.symm
        · tauto
      · rw [if_neg h1, if_neg h2]
        simp only [keys, List.map_cons, List.mem_cons]
        rcases h with rfl | h
        · tauto
        · right
          exact ih h

theorem keys_foldl_selectStep (filter : EquityFilter)
    (src : List (String × Equity)) :
    ∀ (acc : ℕ × EquityMap) (k : String), k ∈ keys acc.2 →
      k ∈ keys (src.foldl (selectStep filter) acc).2 := by
  induction src with
  | nil =>
    intro acc k h
    exact h
  | cons p t ih =>
    intro acc k h
    rw [List.foldl_cons]
    apply ih
    unfold selectStep
    by_cases hs : filter.Select p.2
    · rw [if_pos hs]
      exact keys_insertMap_mem acc.2 p.2.EquityName p.2 k h
    · rw [if_neg hs]
      exact h

theorem findEntry_foldl_selectStep (filter : EquityFilter)
    (src : List (String × Equity)) :
    ∀ (acc : ℕ × EquityMap) (k : String) (v : Equity),
      findEntry acc.2 k = some v →
      (∀ p ∈ src, filter.Select p.2 = true → p.2.EquityName ≠ k) →
      findEntry (src.foldl (selectStep filter) acc).2 k = some v := by
  induction src with
  | nil =>
    intro acc k v h _
    exact h
  | cons p t ih =>
    intro acc k v h hall
    rw [List.foldl_cons]
    apply ih
    · unfold selectStep
      by_cases hs : filter.Select p.2
      · rw [if_pos hs]
        show findEntry (Insert acc.2 p.2) k = some v
        unfold Insert
        rw [findEntry_insertMap_ne _ _ _ _ (hall p (by simp) hs)]
        exact h
      · rw [if_neg hs]
        exact h
    · intro q hq hsq
      exact hall q (by simp [hq]) hsq

/-- C10 counterexample: the result store already holds the entry
`("A", eqA)`; `SelectByFilter` over a source store whose selected record
`eqA2` has the same identifier overwrites it, so an entry the result store
held is no longer present afterwards — refuting the claim that the
primitive never removes entries the result store already held. -/
theorem C10_counterexample :
    (("A"), eqA) ∈ ([(("A"), eqA)] : EquityMap) ∧
    (("A"), eqA) ∉ (SelectByFilter [(("A"), eqA2)] selectAll
      [(("A"), eqA)]).2 := by
  have hins : insertMap [(("A"), eqA)] ("A") eqA2 = [(("A"), eqA2)] := by
    simp only [insertMap]
    rw [if_neg (lt_irrefl _)]
    simp
  have hsel : (SelectByFilter [(("A"), eqA2)] selectAll [(("A"), eqA)]).2 =
      insertMap [(("A"), eqA)] ("A") eqA2 := rfl
  refine ⟨by simp, ?_⟩
  rw [hsel, hins]
  simp [eqA, eqA2]

/-- C10 (amended): both query primitives leave the source store unchanged
(they are `const` on it; `FindByCompareFilter` writes no map at all);
`SelectByFilter` never removes a key from the caller-supplied result store;
and every entry of the result store whose key does not collide with the
identifier of a selected source record is preserved unchanged.  (A
colliding entry is overwritten — see the counterexample.) -/
theorem C10_query_frame :
    (∀ (filter : EquityFilter) (st : ServiceState),
      ((SelectByFilterS filter st).2).src = st.src) ∧
    (∀ (filter : EquityFilter) (st : ServiceState),
      (FindByCompareFilterS filter st).2 = st) ∧
    (∀ (m : EquityMap) (filter : EquityFilter) (result : EquityMap)
      (k : String), k ∈ keys result →
      k ∈ keys (SelectByFilter m filter result).2) ∧
    (∀ (m : EquityMap) (filter : EquityFilter) (result : EquityMap)
      (k : String) (v : Equity),
      findEntry result k = some v →
      (∀ p ∈ m, filter.Select p.2 = true → p.2.EquityName ≠ k) →
      findEntry (SelectByFilter m filter result).2 k = some v) := by
  refine ⟨fun _ _ => rfl, fun _ _ => rfl, ?_, ?_⟩
  · intro m filter result k hk
    unfold SelectByFilter
    by_cases hm : m.length = 0
    · rw [if_pos hm]
      exact hk
    · rw [if_neg hm]
      exact keys_foldl_selectStep filter m (0, result) k hk
  · intro m filter result k v h hall
    unfold SelectByFilter
    by_cases hm : m.length = 0
    · rw [if_pos hm]
      exact h
    · rw [if_neg hm]
      exact findEntry_foldl_selectStep filter m (0, result) k v h hall

/-- C10 witness: selecting from a source store keyed `"B"` preserves the
result-store entry keyed `"A"`. -/
theorem C10_query_frame_witness :
    findEntry (SelectByFilter [(("B"), eqB)] selectAll
      [(("A"), eqA)]).2 ("A") = some eqA :=
  C10_query_frame.2.2.2 [(("B"), eqB)] selectAll [(("A"), eqA)] ("A") eqA
    (by decide) (by decide)

/-- C5: `ParseEquity` splits on the literal `'|'`, rejects any token count
other than 5, validates the fields in schema order — identifier first, then
(after taking the description verbatim with no validation) market-cap,
price, P/E — short-circuiting on the first failing field (a throwing
conversion likewise stops the parse immediately), and on success builds the
record from the five tokens with the description equal to the second token
unchanged. -/
theorem C5_parse_schema (s : String) :
    ((StringSplitter '|' s).length ≠ 5 → ParseEquity s = .fail) ∧
    (∀ t0 t1 t2 t3 t4 : String,
      StringSplitter '|' s = [t0, t1, t2, t3, t4] →
      (parse_EquityName t0 = none → ParseEquity s = .fail) ∧
      (∀ name : String, parse_EquityName t0 = some name →
        (ParseStringLL t2 = .fail → ParseEquity s = .fail) ∧
        (∀ ex, ParseStringLL t2 = .thrown ex → ParseEquity s = .thrown ex) ∧
        (∀ cap : ℤ, ParseStringLL t2 = .ok cap →
          (ParseStringD t3 = .fail → ParseEquity s = .fail) ∧
          (∀ ex, ParseStringD t3 = .thrown ex → ParseEquity s = .thrown ex) ∧
          (∀ price : ℚ, ParseStringD t3 = .ok price →
            (ParseStringD t4 = .fail → ParseEquity s = .fail) ∧
            (∀ ex, ParseStringD t4 = .thrown ex →
              ParseEquity s = .thrown ex) ∧
            (∀ pe : ℚ, ParseStringD t4 = .ok pe →
              ParseEquity s = .ok ⟨name, t1, cap, price, pe⟩))))) := by
  constructor
  · intro hlen
    unfold ParseEquity
    rcases hsp : StringSplitter '|' s with
      _ | ⟨t0, _ | ⟨t1, _ | ⟨t2, _ | ⟨t3, _ | ⟨t4, _ | ⟨t5, rest⟩⟩⟩⟩⟩⟩ <;>
      first
        | rfl
        | (rw [hsp] at hlen; exact absurd rfl hlen)
  · intro t0 t1 t2 t3 t4 hsp
    have hP : ParseEquity s =
        (match parse_EquityName t0 with
        | none => ParseOutcome.fail
        | some name =>
          match ParseStringLL t2 with
          | .thrown e => .thrown e
          | .fail => .fail
          | .ok cap =>
            match ParseStringD t3 with
            | .thrown e => .thrown e
            | .fail => .fail
            | .ok price =>
              match ParseStringD t4 with
              | .thrown e => .thrown e
              | .fail => .fail
              | .ok pe => .ok ⟨name, t1, cap, price, pe⟩) := by
      unfold ParseEquity
      rw [hsp]
    refine ⟨?_, ?_⟩
    · intro hname
      rw [hP, hname]
    · intro name hname
      refine ⟨?_, ?_, ?_⟩
      · intro h2
        rw [hP, hname, h2]
      · intro ex h2
        rw [hP, hname, h2]
      · intro cap h2
        refine ⟨?_, ?_, ?_⟩
        · intro h3
          rw [hP, hname, h2, h3]
        · intro ex h3
          rw [hP, hname, h2, h3]
        · intro price h3
          refine ⟨?_, ?_, ?_⟩
          · intro h4
            rw [hP, hname, h2, h3, h4]
          · intro ex h4
            rw [hP, hname, h2, h3, h4]
          · intro pe h4
            rw [hP, hname, h2, h3, h4]

/-- C5 witness: the line `"AB|d|1|2.5|3"` parses into the record with
identifier `"AB"`, verbatim description `"d"`, market-cap 1, price 2.5 and
P/E 3. -/
theorem C5_parse_schema_witness :
    ParseEquity ("AB|d|1|2.5|3") =
      .ok ⟨("AB"), ("d"), 1, ((25 : ℕ) : ℚ) / ((10 : ℕ) : ℚ),
        ((3 : ℕ) : ℚ)⟩ := by
  have h0 := (C5_parse_schema ("AB|d|1|2.5|3")).2 ("AB") ("d") ("1") ("2.5")
    ("3") (by decide)
  have h1 := h0.2 ("AB") (by decide)
  have h2 := h1.2.2 1 (by decide)
  have h3 := h2.2.2 (((25 : ℕ) : ℚ) / ((10 : ℕ) : ℚ)) (by rfl)
  exact h3.2.2 ((3 : ℕ) : ℚ) (by rfl)

theorem LTrim_all_digitDot (s : String)
    (h : ∀ c ∈ s.data, c ∈ digitDotChars) : LTrim s = s := by
  cases hidx : s.data.findIdx? (fun c => !(whitespaceChars.contains c)) with
  | none =>
    unfold LTrim
    rw [hidx]
  | some ix =>
    have hix : ix = 0 := by
      cases hd : s.data with
      | nil =>
        rw [hd] at hidx
        simp at hidx
      | cons c rest =>
        have hc : c ∈ digitDotChars := h c (by rw [hd]; exact List.mem_cons_self c rest)
        have hcw : (!(whitespaceChars.contains c)) = true := by
          have hdj : ∀ x ∈ digitDotChars, ¬ x ∈ whitespaceChars := by decide
          simpa using hdj c hc
        rw [hd, List.findIdx?_cons, hcw] at hidx
        simp at hidx
        omega
    subst hix
    unfold LTrim
    rw [hidx]
    rfl

theorem any_not_digitDot (s : String)
    (h : ∀ c ∈ s.data, c ∈ digitDotChars) :
    (s.data.any (fun c => !(digitDotChars.contains c))) = false := by
  rw [Bool.eq_false_iff]
  intro hx
  obtain ⟨c, hc, hcb⟩ := List.any_eq_true.mp hx
  have : c ∉ digitDotChars := by simpa using hcb
  exact this (h c hc)

theorem stod_invalid_of_no_start (s : String)
    (hall : ∀ c ∈ s.data, c ∈ digitDotChars)
    (hstart : hasDecimalStart s.data = false) :
    stod s = .error CppExn.invalidArgument := by
  cases hd : s.data with
  | nil =>
    simp only [stod]
    rw [hd]
    rfl
  | cons c rest =>
    have hc : c ∈ digitDotChars := hall c (by rw [hd]; exact List.mem_cons_self c rest)
    have hcd : digitChars.contains c = false := by
      cases hcd2 : digitChars.contains c with
      | false => rfl
      | true =>
        rw [hd] at hstart
        simp only [hasDecimalStart, hcd2, if_true] at hstart
        exact hstart
    have hdot : c = '.' := by
      have hc' : c = '0' ∨ c = '1' ∨ c = '2' ∨ c = '3' ∨ c = '4' ∨ c = '5' ∨
          c = '6' ∨ c = '7' ∨ c = '8' ∨ c = '9' ∨ c = '.' := by
        simpa [digitDotChars] using hc
      rcases hc' with rfl | rfl | rfl | rfl | rfl | rfl | rfl | rfl | rfl |
        rfl | rfl <;> first | rfl | simp [digitChars] at hcd
    subst hdot
    have hfrac : rest.takeWhile (fun x => digitChars.contains x) = [] := by
      cases hr : rest with
      | nil => simp
      | cons c2 r2 =>
        have hc2 : digitChars.contains c2 = false := by
          cases hc22 : digitChars.contains c2 with
        | false => rfl
        | true =>
          rw [hd, hr] at hstart
          simp only [hasDecimalStart, hcd, hc22, Bool.false_eq_true,
            if_false, if_pos rfl] at hstart
          simp at hstart
        rw [List.takeWhile_cons, hc2]
        rfl
    simp only [stod]
    rw [hd]
    have h1 : ('.' :: rest).takeWhile (fun x => digitChars.contains x) = [] := by
      rw [List.takeWhile_cons]
      rfl
    have h2 : ('.' :: rest).dropWhile (fun x => digitChars.contains x) =
        '.' :: rest := by
      rw [List.dropWhile_cons]
      rfl
    rw [h1, h2, if_pos (show (('.' :: rest).head? = some '.') from rfl),
      show ('.' :: rest).drop 1 = rest from rfl, hfrac,
      if_pos (⟨rfl, rfl⟩ : ([] : List Char) = [] ∧ ([] : List Char) = [])]

/-- C3 counterexample: `"1.2.3"` passes the digits-and-dot charset check
and is NOT rejected at the numeric conversion step: `std::stod` converts
the longest valid prefix `"1.2"` and the parse succeeds with value 1.2. -/
theorem C3_multidot_accepted : ParseStringD ("1.2.3") = .ok (6 / 5) := by
  have h : ParseStringD ("1.2.3") =
      .ok (((12 : ℕ) : ℚ) / ((10 : ℕ) : ℚ)) := rfl
  rw [h]
  norm_num

/-- C3 (amended): a decimal-field input that passes the charset check is
not necessarily rejected by the conversion step.  If it has no convertible
prefix (it does not start with a digit, or a dot followed by a digit), the
conversion throws `std::invalid_argument`, which `ParseString` does not
catch, so the input escapes as an exception rather than being rejected;
if `std::stod` converts a value (e.g. the longest valid prefix of a
malformed input such as `"1.2.3"` or `"1..2"`), the parse ACCEPTS it. -/
theorem C3_conversion_step (s : String) (hall : ∀ c ∈ s.data, c ∈ digitDotChars) :
    ((hasDecimalStart s.data = false →
      ParseStringD s = .thrown CppExn.invalidArgument) ∧
     (∀ v : ℚ, stod s = .ok v → ParseStringD s = .ok v)) ∧
    ParseStringD ("1.2.3") = .ok (6 / 5) ∧
    ParseStringD ("1..2") = .ok 1 ∧
    ParseStringD (".") = .thrown CppExn.invalidArgument := by
  have hltrim := LTrim_all_digitDot s hall
  have hany := any_not_digitDot s hall
  refine ⟨⟨?_, ?_⟩, ?_, ?_, by decide⟩
  · intro hstart
    have hstod := stod_invalid_of_no_start s hall hstart
    simp only [ParseStringD]
    rw [hltrim, if_neg (by simpa using hall), hstod]
  · intro v hv
    simp only [ParseStringD]
    rw [hltrim, if_neg (by simpa using hall), hv]
  · have h : ParseStringD ("1.2.3") =
        .ok (((12 : ℕ) : ℚ) / ((10 : ℕ) : ℚ)) := rfl
    rw [h]
    norm_num
  · have h : ParseStringD ("1..2") =
        .ok (((1 : ℕ) : ℚ) / ((1 : ℕ) : ℚ)) := rfl
    rw [h]
    norm_num

/-- C3 witness: `"..5"` passes the charset check, has no convertible
prefix, and escapes as `std::invalid_argument`. -/
theorem C3_conversion_step_witness :
    ParseStringD ("..5") = .thrown CppExn.invalidArgument :=
  ((C3_conversion_step ("..5") (by decide)).1).1 (by decide)

end FastLookup
